import Mathlib

/-!
Verification development for the Needle neural-network layer library
(`python/needle/nn/nn_basic.py`, `nn_transformer.py`, `nn_conv.py`).

The development uses two shallow embeddings of the library's tensors:

* `NDT α` — an unshaped n-dimensional tensor (a shape together with a
  row-major indexed data function), with the numpy-style partial operations
  (`reshape`, `broadcast_to`, elementwise binary ops with broadcasting,
  reduction over axis 0) that the library calls.  Operations return
  `Option` values: `none` models the exception numpy raises on a shape
  violation.  This embedding carries the stateful `BatchNorm1d.forward`
  model, whose running-statistic mutations must be related to the
  failure behaviour.

* fixed-rank tensors as curried functions `Fin b → Fin h → … → α`,
  used for the attention-stack operations (`MultiHeadAttention.matmul`,
  `MultiHeadAttention.softmax`, `Conv.forward`, the clean rank-2
  `BatchNorm1d` training step), where every shape is statically known in
  the source contract.

The module/parameter registry of `nn_basic.py` (`_unpack_params`,
`_child_modules`, `Module.eval`/`train`) is embedded as a mutual
inductive of field values (`Val`/`ValList`), mirroring the `isinstance`
dispatch of the Python code.
-/

/-! ### Unshaped tensors with numpy-style partial operations -/

/-- An n-dimensional tensor over scalars `α`: a shape and a data function
on multi-indices.  Only indices pointwise below the shape are meaningful;
operations never read others. -/
structure NDT (α : Type) where
  shape : List ℕ
  data : List ℕ → α

/-- Row-major linearisation of a multi-index `i` under shape `s`
(numpy's C order, used by `reshape`). -/
def flattenIdx (s i : List ℕ) : ℕ :=
  (List.zip s i).foldl (fun acc di => acc * di.1 + di.2) 0

/-- Inverse of `flattenIdx`: recover the multi-index of row-major
position `n` under shape `s`. -/
def unflattenIdx : List ℕ → ℕ → List ℕ
  | [], _ => []
  | _ :: rest, n => (n / rest.prod) :: unflattenIdx rest (n % rest.prod)

/-- numpy `reshape`: succeeds exactly when the element counts agree,
re-indexing the same row-major data stream. -/
def reshapeND {α : Type} (t : NDT α) (s : List ℕ) : Option (NDT α) :=
  if t.shape.prod = s.prod then
    some ⟨s, fun i => t.data (unflattenIdx t.shape (flattenIdx s i))⟩
  else none

/-- Right-aligned broadcast compatibility of a source shape (reversed)
against a target shape (reversed): every source axis must equal the
target axis or be 1, and the source rank must not exceed the target
rank. -/
def compatRev : List ℕ → List ℕ → Bool
  | [], _ => true
  | _ :: _, [] => false
  | a :: s, b :: t => (a = b || a = 1) && compatRev s t

/-- Map a target multi-index back into a (shorter or equal rank) source
shape: drop the leading target axes and zero out the coordinates of
size-1 source axes. -/
def srcIdx (src i : List ℕ) : List ℕ :=
  List.zipWith (fun d j => if d = 1 then 0 else j) src (i.drop (i.length - src.length))

/-- numpy `broadcast_to`: replicate a tensor to a larger shape; fails on
incompatible shapes (mirrors the engine raising). -/
def broadcastToND {α : Type} (t : NDT α) (s : List ℕ) : Option (NDT α) :=
  if compatRev t.shape.reverse s.reverse then
    some ⟨s, fun i => t.data (srcIdx t.shape i)⟩
  else none

/-- The shape numpy gives an elementwise binary operation, on reversed
shapes: axes must agree or one must be 1, shorter operands are padded. -/
def bsRev : List ℕ → List ℕ → Option (List ℕ)
  | [], t => some t
  | s, [] => some s
  | a :: s, b :: t =>
    if a = b ∨ a = 1 ∨ b = 1 then (bsRev s t).map (max a b :: ·) else none

/-- Result shape of a broadcasting binary operation, `none` on the
shape error numpy raises. -/
def broadcastShapes (s t : List ℕ) : Option (List ℕ) :=
  (bsRev s.reverse t.reverse).map List.reverse

/-- Elementwise binary operation with numpy broadcasting (`+`, `-`, `*`,
`/` on tensors). -/
def binOp {α : Type} (f : α → α → α) (t u : NDT α) : Option (NDT α) :=
  match broadcastShapes t.shape u.shape with
  | none => none
  | some s => some ⟨s, fun i => f (t.data (srcIdx t.shape i)) (u.data (srcIdx u.shape i))⟩

/-- Reduction `sum(axes=0)`: fails on a rank-0 tensor (the same inputs on
which `x.shape[0]` raises). -/
def sumAxis0 {α : Type} [AddCommMonoid α] (t : NDT α) : Option (NDT α) :=
  match t.shape with
  | [] => none
  | b :: rest => some ⟨rest, fun i => ∑ j ∈ Finset.range b, t.data (j :: i)⟩

/-- Elementwise map (scalar multiplication, adding a scalar, `** 2`,
`** 0.5`, …): total, shape preserved. -/
def scalarMap {α : Type} (f : α → α) (t : NDT α) : NDT α :=
  ⟨t.shape, fun i => f (t.data i)⟩

/-! ### BatchNorm1d.forward (nn_basic.py lines 165-175), stateful model

The Python method mutates `self.running_mean` / `self.running_var`
(lines 171-172) between the batch-statistics computation (lines 169-170)
and the evaluation of the returned expression (line 173).  The model
threads that state explicitly: the result is the pair of running
statistics as left by the call together with `some output`, or `none`
where Python raises, the mutations performed so far being kept.

`** 0.5` is passed in as the scalar function `sqrtF` (the scalar theory
is irrelevant to the shape/state behaviour); `batch` is `x.shape[0]`. -/
def bnLine173 {α : Type} [Field α] (dim : ℕ) (eps : α) (sqrtF : α → α)
    (w b : NDT α) (avg var : NDT α) (x : NDT α) : Option (NDT α) :=
  (reshapeND avg [1, dim]).bind fun avgR =>
  (broadcastToND avgR x.shape).bind fun avgB =>
  (binOp (· - ·) x avgB).bind fun xc =>
  (reshapeND var [1, dim]).bind fun varR =>
  (broadcastToND varR x.shape).bind fun varB =>
  (binOp (· / ·) xc (scalarMap sqrtF (scalarMap (· + eps) varB))).bind fun q =>
  (reshapeND w [1, dim]).bind fun wR =>
  (broadcastToND wR x.shape).bind fun wB =>
  (binOp (· * ·) q wB).bind fun q2 =>
  (reshapeND b [1, dim]).bind fun bR =>
  (broadcastToND bR x.shape).bind fun bB =>
  binOp (· + ·) q2 bB

/-- The eval-mode return expression (line 175): same normalisation with
the running statistics in place of the batch statistics. -/
def bnLine175 {α : Type} [Field α] (dim : ℕ) (eps : α) (sqrtF : α → α)
    (w b rm rv : NDT α) (x : NDT α) : Option (NDT α) :=
  bnLine173 dim eps sqrtF w b rm rv x

/-- BatchNorm1d.forward, lines 165-175 of nn_basic.py, with the module
state `(running_mean, running_var)` threaded through explicitly.
Returns the state as left by the call and `some output`, or `none` where
the Python code raises an exception part-way through. -/
def bnForward {α : Type} [Field α] (training : Bool) (dim : ℕ)
    (eps momentum : α) (sqrtF : α → α)
    (w b rm rv : NDT α) (x : NDT α) : (NDT α × NDT α) × Option (NDT α) :=
  if training then
    -- batch = x.shape[0]; avg = x.sum(axes=0) / batch        (line 169)
    match sumAxis0 x with
    | none => ((rm, rv), none)
    | some s0 =>
      let avg := scalarMap (· / ((x.shape.headD 0 : ℕ) : α)) s0
      -- var = ((x - avg.reshape((1,dim)).broadcast_to(x.shape)) ** 2).sum(axes=0) / batch  (line 170)
      match (reshapeND avg [1, dim]).bind fun avgR =>
            (broadcastToND avgR x.shape).bind fun avgB =>
            (binOp (· - ·) x avgB).bind fun xc =>
            sumAxis0 (scalarMap (· ^ 2) xc) with
      | none => ((rm, rv), none)
      | some v0 =>
        let var := scalarMap (· / ((x.shape.headD 0 : ℕ) : α)) v0
        -- self.running_mean = self.running_mean * (1 - momentum) + avg * momentum  (line 171)
        match binOp (· + ·) (scalarMap (· * (1 - momentum)) rm) (scalarMap (· * momentum) avg) with
        | none => ((rm, rv), none)
        | some rm2 =>
          -- self.running_var = self.running_var * (1 - momentum) + var * momentum  (line 172)
          match binOp (· + ·) (scalarMap (· * (1 - momentum)) rv) (scalarMap (· * momentum) var) with
          | none => ((rm2, rv), none)
          | some rv2 =>
            -- return (x - avg…)/(var… + eps) ** 0.5 * weight… + bias…  (line 173)
            match bnLine173 dim eps sqrtF w b avg var x with
            | none => ((rm2, rv2), none)
            | some out => ((rm2, rv2), some out)
  else
    ((rm, rv), bnLine175 dim eps sqrtF w b rm rv x)

/-! ### Fixed-rank tensors for the attention stack -/

/-- A rank-4 tensor of statically known shape `(b, h, q, k)` as a curried
function, the form the attention contract fixes
(`(batch_size, num_head, seq_len, dim_head)`). -/
def T4 (b h q k : ℕ) (α : Type) : Type := Fin b → Fin h → Fin q → Fin k → α

/-- A rank-5 tensor, the intermediate shape of the batched-matmul
emulation. -/
def T5 (b h m n d : ℕ) (α : Type) : Type :=
  Fin b → Fin h → Fin m → Fin n → Fin d → α

/-- `a.reshape((*a.shape[:-1], 1, *a.shape[-1:]))` of
`MultiHeadAttention.matmul` (nn_transformer.py lines 54-55): inserting a
singleton axis before the last axis is, in row-major order, exactly this
re-association of indices. -/
def reshapeInsertAxis3 {b h m d : ℕ} {α : Type} (a : T4 b h m d α) : T5 b h m 1 d α :=
  fun i j p _ r => a i j p r

/-- `b_transpose.reshape((*shape[:-2], 1, *shape[-2:]))` (lines 57-58):
a singleton axis inserted before the penultimate axis. -/
def reshapeInsertAxis2 {b h n d : ℕ} {α : Type} (bt : T4 b h n d α) : T5 b h 1 n d α :=
  fun i j _ q r => bt i j q r

/-- `a.broadcast_to(broadcast_shape)` (lines 60-62): replicate the
singleton fourth axis to length `n` — the value ignores the new index. -/
def broadcastAxis3 {b h m d : ℕ} {α : Type} (n : ℕ) (a : T5 b h m 1 d α) :
    T5 b h m n d α :=
  fun i j p _ r => a i j p 0 r

/-- `b_transpose.broadcast_to(broadcast_shape)` (lines 64-66): replicate
the singleton third axis to length `m`. -/
def broadcastAxis2 {b h n d : ℕ} {α : Type} (m : ℕ) (bt : T5 b h 1 n d α) :
    T5 b h m n d α :=
  fun i j _ q r => bt i j 0 q r

/-- MultiHeadAttention.matmul (nn_transformer.py lines 50-68): the
batched matrix product emulated by inserting singleton axes,
broadcasting both operands to the common rank-5 shape, multiplying
elementwise and summing over the last (contraction) axis. -/
def MultiHeadAttention.matmul {b h m n d : ℕ} {α : Type} [NonUnitalNonAssocSemiring α]
    (a : T4 b h m d α) (bt : T4 b h n d α) : T4 b h m n α :=
  fun i j p q =>
    ∑ r : Fin d,
      broadcastAxis3 n (reshapeInsertAxis3 a) i j p q r *
      broadcastAxis2 m (reshapeInsertAxis2 bt) i j p q r

/-- The reference batched matrix product the spec states:
`result[b,h,i,j] = Σ_k a[b,h,i,k] * b_transpose[b,h,j,k]`. -/
def refBatchedMatmul {b h m n d : ℕ} {α : Type} [NonUnitalNonAssocSemiring α]
    (a : T4 b h m d α) (bt : T4 b h n d α) : T4 b h m n α :=
  fun i j p q => ∑ r : Fin d, a i j p r * bt i j q r

/-- The per-row maximum `logit.realize_cached_data().max(axis=3)` of
MultiHeadAttention.softmax (lines 74-79); the detachment from gradient
tracking does not change the value. `k + 1` renders the reduced axis
nonempty, as numpy's `max` demands. -/
noncomputable def rowMax {b h q k : ℕ} (l : T4 b h q (k + 1) ℝ) :
    Fin b → Fin h → Fin q → ℝ :=
  fun i j p => Finset.univ.sup' ⟨0, Finset.mem_univ 0⟩ (fun r => l i j p r)

/-- MultiHeadAttention.softmax (nn_transformer.py lines 70-90): subtract
the broadcast per-row maximum, exponentiate, and normalise by the
broadcast row sum along axis 3. -/
noncomputable def MultiHeadAttention.softmax {b h q k : ℕ} (l : T4 b h q (k + 1) ℝ) :
    T4 b h q (k + 1) ℝ :=
  fun i j p r =>
    Real.exp (l i j p r - rowMax l i j p) /
      ∑ r2 : Fin (k + 1), Real.exp (l i j p r2 - rowMax l i j p)

/-! ### BatchNorm1d training step on its contractual rank-2 shape -/

/-- BatchNorm1d.forward in training mode (nn_basic.py lines 167-173) on
an input of the contractual shape `(batch, dim)`: the per-feature batch
mean (line 169), batch variance (line 170), the updated running
statistics (lines 171-172) and the returned normalisation (line 173),
with `** 0.5` realised by `Real.sqrt`.  Result:
`(output, running_mean, running_var)`. -/
noncomputable def bnTrainStep (batch dim : ℕ) (eps momentum : ℝ)
    (w bias rm rv : Fin dim → ℝ) (x : Fin batch → Fin dim → ℝ) :
    (Fin batch → Fin dim → ℝ) × (Fin dim → ℝ) × (Fin dim → ℝ) :=
  let avg : Fin dim → ℝ := fun j => (∑ i : Fin batch, x i j) / batch
  let var : Fin dim → ℝ := fun j => (∑ i : Fin batch, (x i j - avg j) ^ 2) / batch
  ( fun i j => (x i j - avg j) / Real.sqrt (var j + eps) * w j + bias j,
    fun j => rm j * (1 - momentum) + avg j * momentum,
    fun j => rv j * (1 - momentum) + var j * momentum )

/-- The spec's per-feature batch mean over the batch axis. -/
noncomputable def specBatchMean (batch dim : ℕ) (x : Fin batch → Fin dim → ℝ) :
    Fin dim → ℝ :=
  fun j => (∑ i : Fin batch, x i j) / batch

/-- The spec's per-feature batch variance over the batch axis. -/
noncomputable def specBatchVar (batch dim : ℕ) (x : Fin batch → Fin dim → ℝ) :
    Fin dim → ℝ :=
  fun j => (∑ i : Fin batch, (x i j - specBatchMean batch dim x j) ^ 2) / batch

/-! ### Conv.forward (nn_conv.py lines 49-58) -/

/-- `transpose((1, 2))` on a rank-4 tensor: swap the second and third
axes. -/
def swapAxes12 {a b c d : ℕ} {α : Type} (x : T4 a b c d α) : T4 a c b d α :=
  fun i j e f => x i e j f

/-- `transpose((2, 3))` on a rank-4 tensor: swap the last two axes. -/
def swapAxes23 {a b c d : ℕ} {α : Type} (x : T4 a b c d α) : T4 a b d c α :=
  fun i j e f => x i j f e

/-- Conv.forward (nn_conv.py lines 49-58).  The engine convolution
primitive `ops.conv` belongs to the external tensor engine and enters as
the parameter `convPrim` (weight, stride and padding already applied
inside it); `truthy` is the result of the `if self.bias:` test.

Modelled from the spec: the truthiness of a needle `Tensor`
(`needle/autograd.py`, not under `src/`) — the spec's design note warns
that "an all-zero bias tensor could be misread as absent", so a present
bias is taken as truthy exactly when some entry is nonzero; the theorem
below ties `truthy` to that reading.  Layout steps: NCHW → NHWC by
`transpose((1,2))` then `transpose((2,3))`, engine convolution, optional
bias reshaped to `(1,1,1,out_channels)` and broadcast, and NHWC → NCHW
by `transpose((2,3))` then `transpose((1,2))`. -/
def Conv.forward {n cin h w h2 w2 cout : ℕ} {α : Type} [Add α]
    (truthy : Bool)
    (convPrim : T4 n h w cin α → T4 n h2 w2 cout α)
    (bias : Fin cout → α) (x : T4 n cin h w α) : T4 n cout h2 w2 α :=
  let nhwc_x := swapAxes23 (swapAxes12 x)
  let nhwc_output := convPrim nhwc_x
  let withBias :=
    if truthy then (fun i j e f => nhwc_output i j e f + bias f) else nhwc_output
  swapAxes12 (swapAxes23 withBias)

/-! ### The parameter/module registry (nn_basic.py lines 14-74)

A Python module's `__dict__` maps field names to values that are
Parameters, plain Tensors, child Modules, dicts, lists/tuples, or
anything else.  Keys play no role in the traversal (`dict` iteration in
Python is insertion order, modelled by the list order), so field
dictionaries are lists of values.  Tensors and Parameters are identified
by an id standing for the underlying object. -/

mutual
inductive Val : Type where
  | tensor (id : ℕ) : Val
  | param (id : ℕ) : Val
  | mod (training : Bool) (fields : ValList) : Val
  | vdict (entries : ValList) : Val
  | vlist (entries : ValList) : Val
  | prim : Val
inductive ValList : Type where
  | nil : ValList
  | cons (v : Val) (l : ValList) : ValList
end

mutual
/-- `_unpack_params` (nn_basic.py lines 14-30): a Parameter contributes
itself (the `isinstance(value, Parameter)` arm, which fires before the
plain-Tensor fallthrough since `Parameter` subclasses `Tensor`); a
Module contributes `value.parameters()`, i.e. the unpacking of its
`__dict__`; a dict or a list/tuple accumulates `params += …` over its
values in order; everything else contributes nothing. -/
def unpackParams : Val → List ℕ
  | .param i => [i]
  | .mod _ fs => unpackAcc [] fs
  | .vdict vs => unpackAcc [] vs
  | .vlist vs => unpackAcc [] vs
  | .tensor _ => []
  | .prim => []
/-- The `params = []; for …: params += _unpack_params(…)` accumulation
loop of `_unpack_params`, with its explicit accumulator. -/
def unpackAcc : List ℕ → ValList → List ℕ
  | acc, .nil => acc
  | acc, .cons v l => unpackAcc (acc ++ unpackParams v) l
end

mutual
/-- The recursion rule as the spec words it: a Parameter contributes
itself; a Module contributes its own parameter set recursively; a
mapping contributes the concatenation over its values in key order; an
aggregate contributes the concatenation over its elements in iteration
order; any other value contributes nothing. -/
def specUnpack : Val → List ℕ
  | .param i => [i]
  | .mod _ fs => specUnpackL fs
  | .vdict vs => specUnpackL vs
  | .vlist vs => specUnpackL vs
  | .tensor _ => []
  | .prim => []
/-- Concatenation over the values of a mapping/aggregate, in order. -/
def specUnpackL : ValList → List ℕ
  | .nil => []
  | .cons v l => specUnpack v ++ specUnpackL l
end

mutual
/-- `_child_modules` (nn_basic.py lines 33-49): a Module contributes
itself followed by the child modules found in its `__dict__`; dicts and
lists/tuples accumulate over their values; anything else contributes
nothing. -/
def childModules : Val → List Val
  | .mod t fs => Val.mod t fs :: childModulesL fs
  | .vdict vs => childModulesL vs
  | .vlist vs => childModulesL vs
  | .tensor _ => []
  | .param _ => []
  | .prim => []
/-- The accumulation over a dict's values / a list's elements. -/
def childModulesL : ValList → List Val
  | .nil => []
  | .cons v l => childModules v ++ childModulesL l
end

mutual
/-- Module.eval / Module.train (nn_basic.py lines 63-71): set the
module's own flag and the flag of every module collected by
`self._children()`.  On the tree the registry walks (exclusive
ownership, no aliasing — the spec's lifecycle invariant) mutating each
collected module in place is the recursive update of every reachable
`training` flag, which is what this functional model performs. -/
def setTraining (b : Bool) : Val → Val
  | .mod _ fs => .mod b (setTrainingL b fs)
  | .vdict vs => .vdict (setTrainingL b vs)
  | .vlist vs => .vlist (setTrainingL b vs)
  | .tensor i => .tensor i
  | .param i => .param i
  | .prim => .prim
def setTrainingL (b : Bool) : ValList → ValList
  | .nil => .nil
  | .cons v l => .cons (setTraining b v) (setTrainingL b l)
end

/-- The `training` flag of a module value. -/
def trainingFlag : Val → Option Bool
  | .mod t _ => some t
  | _ => none

/-- The `__dict__` of a freshly constructed BatchNorm1d (nn_basic.py
lines 152-163), in assignment order: `training` (set by
`Module.__init__`), `dim`, `eps`, `momentum`, the Parameters `weight`
and `bias`, the plain Tensors `running_mean` and `running_var` (created
by `init.zeros`/`init.ones`, never wrapped in `Parameter`), and
`device`.  `BatchNorm2d.__init__` delegates to this constructor
unchanged, so its `__dict__` has the same structure. -/
def bn1dFields (wId bId rmId rvId : ℕ) : ValList :=
  .cons .prim (.cons .prim (.cons .prim (.cons .prim
    (.cons (.param wId) (.cons (.param bId)
      (.cons (.tensor rmId) (.cons (.tensor rvId) (.cons .prim .nil))))))))

/-- Dropout.forward (nn_basic.py lines 219-227) on the `NDT` embedding:
in training mode multiply by the Bernoulli `mask` drawn from the
external generator and divide by `1 - p`; in eval mode return the input
unchanged. -/
def dropoutForward {α : Type} [Field α] (training : Bool) (p : α)
    (mask : NDT α) (x : NDT α) : Option (NDT α) :=
  if training then (binOp (· * ·) x mask).map (scalarMap (· / (1 - p))) else some x

/-! ### Transformer.forward (nn_transformer.py lines 332-353) -/

/-- `ops.transpose(x, axes=(0, 1))`: swap the first two axes of a tensor
of rank at least 2; the engine raises otherwise. -/
def transpose01ND {α : Type} (t : NDT α) : Option (NDT α) :=
  match t.shape with
  | a :: b :: rest =>
    some ⟨b :: a :: rest, fun i =>
      match i with
      | p :: q :: r => t.data (q :: p :: r)
      | _ => t.data i⟩
  | _ => none

/-- Modelled from the spec: `Embedding.forward` (nn_sequence.py, a file
of this repository that is not under src/) — the positional-embedding
table is "a trainable lookup table of shape (max_sequence_len,
embedding_size), indexed by position integers".  Applied to the `(l, b)`
tensor of positions built at lines 341-345 (entry `(p, j)` holds the
position `p`), the lookup yields the `(l, b, embedding_size)` tensor
whose entry `(p, j, e)` is row `p` of the table. -/
def embeddingOnPositions {α : Type} (table : ℕ → ℕ → α) (l bsz dEmb : ℕ) : NDT α :=
  ⟨[l, bsz, dEmb], fun i => table (i.headD 0) ((i.drop 2).headD 0)⟩

/-- Transformer.forward (nn_transformer.py lines 332-353).  The stacked
`TransformerLayer`s (`self.transformer_layers`, a `Sequential`) enter as
the function `layers`, and the positional-embedding table as `table`.
The optional hidden-state argument `h` (defaulting to `None` in Python)
may have any type.  Steps: optional transpose to batch-first, unpack
`b, l, d = x.shape` (raising unless the rank is exactly 3), add the
positional embedding transposed to `(b, l, d)`, run the layers, undo the
transpose, and return the result paired with `init.zeros_like(x)`. -/
def Transformer.forward {α β : Type} [Add β] [Zero β] (batch_first : Bool)
    (table : ℕ → ℕ → β) (layers : NDT β → NDT β) (x : NDT β) (h : α) :
    Option (NDT β × NDT β) :=
  match (if batch_first then some x else transpose01ND x) with
  | none => none
  | some x1 =>
    match x1.shape with
    | [bsz, l, dEmb] =>
      match transpose01ND (embeddingOnPositions table l bsz dEmb) with
      | none => none
      | some pos =>
        match binOp (· + ·) x1 pos with
        | none => none
        | some x2 =>
          let x3 := layers x2
          match (if batch_first then some x3 else transpose01ND x3) with
          | none => none
          | some out => some (out, ⟨out.shape, fun _ => 0⟩)
    | _ => none

/-! ### Helper lemmas -/

mutual
theorem unpack_eq_spec_aux : (v : Val) → unpackParams v = specUnpack v
  | .param _ => rfl
  | .tensor _ => rfl
  | .prim => rfl
  | .mod _ fs => by
    rw [unpackParams, specUnpack, unpackAcc_eq_aux [] fs, List.nil_append]
  | .vdict vs => by
    rw [unpackParams, specUnpack, unpackAcc_eq_aux [] vs, List.nil_append]
  | .vlist vs => by
    rw [unpackParams, specUnpack, unpackAcc_eq_aux [] vs, List.nil_append]
theorem unpackAcc_eq_aux : (acc : List ℕ) → (l : ValList) →
    unpackAcc acc l = acc ++ specUnpackL l
  | acc, .nil => by rw [unpackAcc, specUnpackL, List.append_nil]
  | acc, .cons v l => by
    rw [unpackAcc, specUnpackL, unpackAcc_eq_aux _ l, unpack_eq_spec_aux v,
      List.append_assoc]
end

/-! ### Claim theorems -/

/-- C4: for all rank-4 tensors `a` of shape `(B,H,m,d)` and `b_transpose`
of shape `(B,H,n,d)`, `MultiHeadAttention.matmul` — singleton-axis
insertion, broadcast to the common rank-5 shape, elementwise product,
sum over the last axis — equals the reference batched matrix product
`result[b,h,i,j] = Σ_k a[b,h,i,k] * b_transpose[b,h,j,k]`. -/
theorem matmul_eq_refBatchedMatmul {b h m n d : ℕ} {α : Type}
    [NonUnitalNonAssocSemiring α] (a : T4 b h m d α) (bt : T4 b h n d α) :
    MultiHeadAttention.matmul a bt = refBatchedMatmul a bt := by
  funext i j p q
  refine Finset.sum_congr rfl fun r _ => ?_
  rfl

/-- C3: a training-mode BatchNorm1d forward on a `(batch, dim)` input
normalises with the current batch's per-feature mean and variance (not
the running averages, which do not occur in the output), adds `eps` to
the variance before the square root, applies the affine `weight`/`bias`
transform, and leaves `running_mean = momentum*batch_mean +
(1-momentum)*previous` and `running_var = momentum*batch_var +
(1-momentum)*previous`. -/
theorem bnTrainStep_matches_spec (batch dim : ℕ) (eps momentum : ℝ)
    (w bias rm rv : Fin dim → ℝ) (x : Fin batch → Fin dim → ℝ) :
    (bnTrainStep batch dim eps momentum w bias rm rv x).1 =
      (fun i j => (x i j - specBatchMean batch dim x j) /
        Real.sqrt (specBatchVar batch dim x j + eps) * w j + bias j) ∧
    (bnTrainStep batch dim eps momentum w bias rm rv x).2.1 =
      (fun j => momentum * specBatchMean batch dim x j + (1 - momentum) * rm j) ∧
    (bnTrainStep batch dim eps momentum w bias rm rv x).2.2 =
      (fun j => momentum * specBatchVar batch dim x j + (1 - momentum) * rv j) := by
  refine ⟨rfl, ?_, ?_⟩
  · funext j
    show rm j * (1 - momentum) + specBatchMean batch dim x j * momentum = _
    ring
  · funext j
    show rv j * (1 - momentum) + specBatchVar batch dim x j * momentum = _
    ring

/-- C8: `Module.parameters` / `_unpack_params` returns the flat ordered
concatenation prescribed by the spec's recursion rule — a Parameter
contributes itself, a Module its own parameter list recursively, a
mapping the concatenation over its values in key order, a list/tuple the
concatenation over its elements, anything else nothing. -/
theorem unpackParams_follows_spec_rule (v : Val) :
    unpackParams v = specUnpack v :=
  unpack_eq_spec_aux v

/-- C10: a freshly constructed BatchNorm1d (and BatchNorm2d, whose
constructor delegates unchanged) exposes exactly `[weight, bias]` as
parameters; `running_mean` and `running_var` are plain Tensors, not
Parameters, and never enter the parameter list. -/
theorem bn1d_parameters_weight_bias (wId bId rmId rvId : ℕ) :
    unpackParams (Val.mod true (bn1dFields wId bId rmId rvId)) = [wId, bId] :=
  rfl

/-- C9: `Transformer.forward` produces the same output for every value of
the optional hidden-state argument `h` — the argument flows into no part
of the computation. -/
theorem transformer_forward_ignores_h {α β : Type} [Add β] [Zero β]
    (batch_first : Bool) (table : ℕ → ℕ → β) (layers : NDT β → NDT β)
    (x : NDT β) (h h2 : α) :
    Transformer.forward batch_first table layers x h =
      Transformer.forward batch_first table layers x h2 :=
  rfl

theorem rowMax_add_const {b h q k : ℕ} (l : T4 b h q (k + 1) ℝ) (C : ℝ) :
    rowMax (fun i j p r => l i j p r + C) =
      fun i j p => rowMax l i j p + C := by
  funext i j p
  unfold rowMax
  apply le_antisymm
  · refine Finset.sup'_le _ _ fun r _ => ?_
    exact add_le_add_right (Finset.le_sup' (fun r => l i j p r) (Finset.mem_univ r)) C
  · have hle : Finset.univ.sup' ⟨0, Finset.mem_univ 0⟩ (fun r => l i j p r) ≤
        Finset.univ.sup' ⟨0, Finset.mem_univ 0⟩ (fun r => l i j p r + C) - C := by
      refine Finset.sup'_le _ _ fun r _ => ?_
      have := Finset.le_sup' (fun r => l i j p r + C) (Finset.mem_univ r)
      linarith
    linarith

/-- C5: the max-subtracting `MultiHeadAttention.softmax` is invariant
under adding a constant shift `C` to every logit: the per-row maximum
shifts by `C`, so the shifted exponents — and hence the probabilities —
are unchanged. -/
theorem softmax_shift_invariant {b h q k : ℕ} (l : T4 b h q (k + 1) ℝ) (C : ℝ) :
    MultiHeadAttention.softmax (fun i j p r => l i j p r + C) =
      MultiHeadAttention.softmax l := by
  funext i j p r
  simp only [MultiHeadAttention.softmax, rowMax_add_const]
  have harg : ∀ r2 : Fin (k + 1),
      l i j p r2 + C - (rowMax l i j p + C) = l i j p r2 - rowMax l i j p :=
    fun r2 => by ring
  simp only [harg]

mutual
theorem setTraining_flag_aux (b : Bool) : (v : Val) →
    ∀ w ∈ childModules (setTraining b v), trainingFlag w = some b
  | .mod _ fs => by
    intro w hw
    rw [setTraining, childModules] at hw
    rcases List.mem_cons.mp hw with h | h
    · subst h; rfl
    · exact setTrainingL_flag_aux b fs w h
  | .vdict vs => by
    intro w hw
    rw [setTraining, childModules] at hw
    exact setTrainingL_flag_aux b vs w hw
  | .vlist vs => by
    intro w hw
    rw [setTraining, childModules] at hw
    exact setTrainingL_flag_aux b vs w hw
  | .tensor i => by intro w hw; rw [setTraining, childModules] at hw; cases hw
  | .param i => by intro w hw; rw [setTraining, childModules] at hw; cases hw
  | .prim => by intro w hw; rw [setTraining, childModules] at hw; cases hw
theorem setTrainingL_flag_aux (b : Bool) : (l : ValList) →
    ∀ w ∈ childModulesL (setTrainingL b l), trainingFlag w = some b
  | .nil => by intro w hw; rw [setTrainingL, childModulesL] at hw; cases hw
  | .cons v l => by
    intro w hw
    rw [setTrainingL, childModulesL] at hw
    rcases List.mem_append.mp hw with h | h
    · exact setTraining_flag_aux b v w h
    · exact setTrainingL_flag_aux b l w h
end

/-- C6: `eval()` (`setTraining false`) and `train()` (`setTraining true`)
on any module value set the `training` flag of the module itself and of
every module reachable through its fields — every entry of the
recursively collected `_child_modules` list carries the new flag — and
with `training = false` every Dropout's forward returns its input
unchanged. -/
theorem eval_train_propagate_and_dropout_identity :
    (∀ (b : Bool) (v : Val),
      ∀ w ∈ childModules (setTraining b v), trainingFlag w = some b) ∧
    (∀ (p : ℝ) (mask x : NDT ℝ), dropoutForward false p mask x = some x) :=
  ⟨fun b v => setTraining_flag_aux b v, fun _ _ _ => rfl⟩

/-- Witness for C6: a nested module tree with an inner module inside its
root's fields; after `eval()` the collected inner child module carries
`training = false`. -/
theorem eval_train_propagate_witness :
    Val.mod false ValList.nil ∈
      childModules (setTraining false
        (Val.mod true (ValList.cons
          (Val.vlist (ValList.cons (Val.mod true ValList.nil) ValList.nil))
          ValList.nil))) ∧
    trainingFlag (Val.mod false ValList.nil) = some false :=
  ⟨by simp [setTraining, setTrainingL, childModules, childModulesL],
   eval_train_propagate_and_dropout_identity.1 false
     (Val.mod true (ValList.cons
       (Val.vlist (ValList.cons (Val.mod true ValList.nil) ValList.nil))
       ValList.nil))
     (Val.mod false ValList.nil)
     (by simp [setTraining, setTrainingL, childModules, childModulesL])⟩

/-- C7: for a Conv constructed with `bias=True` (so a bias tensor is
present), `forward` yields the channel-last engine-convolution output
plus the bias broadcast over the channel-last layout, converted back to
channel-first — entry `(i, c, e, f)` of the result is entry
`(i, e, f, c)` of the convolution plus `bias c`.  The hypothesis ties
the `if self.bias:` truthiness test to the spec's numeric reading (truthy
iff some entry is nonzero); when the test misreads an all-zero bias as
absent, skipping the addition changes nothing. -/
theorem conv_forward_adds_bias {n cin h w h2 w2 cout : ℕ} {α : Type}
    [AddZeroClass α] (truthy : Bool)
    (convPrim : T4 n h w cin α → T4 n h2 w2 cout α)
    (bias : Fin cout → α) (x : T4 n cin h w α)
    (htruthy : truthy = true ↔ ∃ j, bias j ≠ 0) :
    Conv.forward truthy convPrim bias x =
      fun i j e f => convPrim (swapAxes23 (swapAxes12 x)) i e f j + bias j := by
  cases truthy with
  | true => rfl
  | false =>
    have hz : ∀ j, bias j = 0 := by
      intro j
      by_contra hj
      exact Bool.false_ne_true (htruthy.mpr ⟨j, hj⟩)
    funext i j e f
    simp [Conv.forward, swapAxes12, swapAxes23, hz]

/-- Witness for C7: a 1×1×1×1 convolution with identity engine
primitive and the constant bias 1, truthy as a present nonzero tensor. -/
theorem conv_forward_adds_bias_witness :
    ((true = true) ↔ ∃ j : Fin 1, (fun _ : Fin 1 => (1 : ℚ)) j ≠ 0) ∧
    Conv.forward (α := ℚ) true (fun t : T4 1 1 1 1 ℚ => t)
        (fun _ : Fin 1 => (1 : ℚ)) (fun _ _ _ _ => 0) =
      fun i j e f =>
        (fun t : T4 1 1 1 1 ℚ => t)
          (swapAxes23 (swapAxes12 (fun _ _ _ _ => (0 : ℚ)))) i e f j + 1 :=
  ⟨by simp,
   conv_forward_adds_bias true (fun t => t) (fun _ => (1 : ℚ))
     (fun _ _ _ _ => 0) (by simp)⟩

theorem scalarMap_shape {α : Type} (f : α → α) (t : NDT α) :
    (scalarMap f t).shape = t.shape := rfl

theorem reshapeND_eq_some {α : Type} {t : NDT α} {s : List ℕ} {u : NDT α}
    (h : reshapeND t s = some u) : t.shape.prod = s.prod ∧ u.shape = s := by
  unfold reshapeND at h
  split at h
  · cases h
    exact ⟨by assumption, rfl⟩
  · cases h

theorem reshapeND_isSome {α : Type} (t : NDT α) (s : List ℕ)
    (h : t.shape.prod = s.prod) :
    ∃ u, reshapeND t s = some u ∧ u.shape = s := by
  refine ⟨⟨s, fun i => t.data (unflattenIdx t.shape (flattenIdx s i))⟩, ?_, rfl⟩
  unfold reshapeND
  rw [if_pos h]

theorem broadcastToND_eq_some {α : Type} {t : NDT α} {s : List ℕ} {u : NDT α}
    (h : broadcastToND t s = some u) :
    compatRev t.shape.reverse s.reverse = true ∧ u.shape = s := by
  unfold broadcastToND at h
  split at h
  · cases h
    exact ⟨by assumption, rfl⟩
  · cases h

theorem broadcastToND_isSome {α : Type} (t : NDT α) (s : List ℕ)
    (h : compatRev t.shape.reverse s.reverse = true) :
    ∃ u, broadcastToND t s = some u ∧ u.shape = s := by
  refine ⟨⟨s, fun i => t.data (srcIdx t.shape i)⟩, ?_, rfl⟩
  unfold broadcastToND
  rw [if_pos h]

theorem bsRev_self : ∀ r : List ℕ, bsRev r r = some r
  | [] => rfl
  | a :: s => by
    simp [bsRev, bsRev_self s]

theorem broadcastShapes_self (s : List ℕ) : broadcastShapes s s = some s := by
  unfold broadcastShapes
  rw [bsRev_self]
  simp

theorem binOp_eq_some {α : Type} {f : α → α → α} {t u v : NDT α}
    (h : binOp f t u = some v) :
    broadcastShapes t.shape u.shape = some v.shape := by
  unfold binOp at h
  split at h
  · cases h
  · cases h
    rename_i s hs
    simpa using hs

theorem binOp_of_shapes {α : Type} (f : α → α → α) (t u : NDT α) {s : List ℕ}
    (h : broadcastShapes t.shape u.shape = some s) :
    ∃ v, binOp f t u = some v ∧ v.shape = s := by
  refine ⟨⟨s, fun i => f (t.data (srcIdx t.shape i)) (u.data (srcIdx u.shape i))⟩, ?_, rfl⟩
  unfold binOp
  rw [h]

theorem binOp_same_shape {α : Type} (f : α → α → α) (t u : NDT α)
    (h : t.shape = u.shape) :
    ∃ v, binOp f t u = some v ∧ v.shape = u.shape := by
  refine binOp_of_shapes f t u ?_
  rw [h, broadcastShapes_self]

theorem sumAxis0_eq_some {α : Type} [AddCommMonoid α] {t u : NDT α}
    (h : sumAxis0 t = some u) : u.shape = t.shape.tail := by
  unfold sumAxis0 at h
  split at h
  · cases h
  · cases h
    rename_i bq rest hsh
    rw [hsh]
    rfl

theorem bnLine173_isSome {α : Type} [Field α] (dim : ℕ) (eps : α) (sqrtF : α → α)
    (w b avg var x : NDT α)
    (hw : w.shape = [dim]) (hbs : b.shape = [dim])
    (havg : avg.shape.prod = dim) (hvar : var.shape.prod = dim)
    (hc : compatRev ([1, dim] : List ℕ).reverse x.shape.reverse = true) :
    ∃ out, bnLine173 dim eps sqrtF w b avg var x = some out := by
  have hpd : ([1, dim] : List ℕ).prod = dim := by simp
  obtain ⟨avgR, hAvgR, hAvgRs⟩ := reshapeND_isSome avg [1, dim] (by rw [havg, hpd])
  obtain ⟨avgB, hAvgB, hAvgBs⟩ :=
    broadcastToND_isSome avgR x.shape (by rw [hAvgRs]; exact hc)
  obtain ⟨xc, hXc, hXcs⟩ := binOp_same_shape (· - ·) x avgB (by rw [hAvgBs])
  obtain ⟨varR, hVarR, hVarRs⟩ := reshapeND_isSome var [1, dim] (by rw [hvar, hpd])
  obtain ⟨varB, hVarB, hVarBs⟩ :=
    broadcastToND_isSome varR x.shape (by rw [hVarRs]; exact hc)
  obtain ⟨q, hQ, hQs⟩ :=
    binOp_same_shape (· / ·) xc (scalarMap sqrtF (scalarMap (· + eps) varB))
      (by rw [hXcs, scalarMap_shape, scalarMap_shape, hVarBs, hAvgBs])
  obtain ⟨wR, hWR, hWRs⟩ :=
    reshapeND_isSome w [1, dim] (by rw [hw, hpd]; simp)
  obtain ⟨wB, hWB, hWBs⟩ :=
    broadcastToND_isSome wR x.shape (by rw [hWRs]; exact hc)
  obtain ⟨q2, hQ2, hQ2s⟩ :=
    binOp_same_shape (· * ·) q wB
      (by rw [hQs, hWBs, scalarMap_shape, scalarMap_shape, hVarBs])
  obtain ⟨bR, hBR, hBRs⟩ :=
    reshapeND_isSome b [1, dim] (by rw [hbs, hpd]; simp)
  obtain ⟨bB, hBB, hBBs⟩ :=
    broadcastToND_isSome bR x.shape (by rw [hBRs]; exact hc)
  obtain ⟨out, hOut, hOuts⟩ :=
    binOp_same_shape (· + ·) q2 bB (by rw [hQ2s, hWBs, hBBs])
  refine ⟨out, ?_⟩
  unfold bnLine173
  rw [hAvgR, Option.some_bind, hAvgB, Option.some_bind, hXc, Option.some_bind,
    hVarR, Option.some_bind, hVarB, Option.some_bind, hQ, Option.some_bind,
    hWR, Option.some_bind, hWB, Option.some_bind, hQ2, Option.some_bind,
    hBR, Option.some_bind, hBB, Option.some_bind, hOut]

/-- C2: a `BatchNorm1d.forward` call that raises leaves the module's
running statistics at their prior values — every raising path (rank-0
input, a shape violation in the batch-statistics computation, or an
incompatible running-statistic update) occurs before any assignment to
`running_mean`/`running_var`, and once the updates have run the
remaining return-expression is shown to succeed, so no error can escape
after a partial mutation.  Parameters (`weight`, `bias`) are never
assigned by `forward` at all.  The shape hypotheses are the shapes the
constructor (lines 159-162) gives the four module tensors. -/
theorem bnForward_failure_preserves_stats {α : Type} [Field α]
    (training : Bool) (dim : ℕ) (eps momentum : α) (sqrtF : α → α)
    (w b rm rv x : NDT α)
    (hw : w.shape = [dim]) (hbs : b.shape = [dim])
    (hrm : rm.shape = [dim]) (hrv : rv.shape = [dim])
    (herr : (bnForward training dim eps momentum sqrtF w b rm rv x).2 = none) :
    (bnForward training dim eps momentum sqrtF w b rm rv x).1 = (rm, rv) := by
  cases training with
  | false => rfl
  | true =>
    unfold bnForward at herr ⊢
    rw [if_pos rfl] at herr ⊢
    cases hs : sumAxis0 x with
    | none => simp only [hs]
    | some s0 =>
      simp only [hs] at herr ⊢
      split at herr
      · -- the batch-variance chain (line 170) raised before any update
        rename_i heq1
        simp only [heq1]
      · rename_i v0 heq1
        -- decompose the successful line-170 chain into shape facts
        obtain ⟨avgR, hAvgR, h1⟩ := Option.bind_eq_some.mp heq1
        obtain ⟨avgB, hAvgB, h2⟩ := Option.bind_eq_some.mp h1
        obtain ⟨xc, hXc, h3⟩ := Option.bind_eq_some.mp h2
        have hAvgRs := reshapeND_eq_some hAvgR
        have hAvgBs := broadcastToND_eq_some hAvgB
        have hXcsh : xc.shape = x.shape := by
          have h4 := binOp_eq_some hXc
          rw [hAvgBs.2, broadcastShapes_self] at h4
          exact (Option.some.inj h4).symm
        have hv0s : v0.shape = x.shape.tail := by
          have := sumAxis0_eq_some h3
          rwa [scalarMap_shape, hXcsh] at this
        have hs0s : s0.shape = x.shape.tail := sumAxis0_eq_some hs
        have havgP : (scalarMap (· / ((x.shape.headD 0 : ℕ) : α)) s0).shape.prod
            = dim := by
          have := hAvgRs.1
          simpa using this
        have hcmp : compatRev ([1, dim] : List ℕ).reverse x.shape.reverse = true := by
          have := hAvgBs.1
          rwa [hAvgRs.2] at this
        split at herr
        · -- the running_mean update itself raised: nothing was assigned
          rename_i heq2
          simp only [heq1, heq2]
        · rename_i rm2 heq2
          -- running_mean was assigned; show the running_var update succeeds
          have hbsh : broadcastShapes
              (scalarMap (· * (1 - momentum)) rv).shape
              (scalarMap (· * momentum)
                (scalarMap (· / ((x.shape.headD 0 : ℕ) : α)) v0)).shape
              = some rm2.shape := by
            have h5 := binOp_eq_some heq2
            simp only [scalarMap_shape] at h5 ⊢
            rw [hrm, hs0s, ← hv0s] at h5
            rw [hrv]
            exact h5
          obtain ⟨rv2a, hRv2a, _⟩ := binOp_of_shapes (· + ·) _ _ hbsh
          split at herr
          · rename_i heq3
            exact absurd (hRv2a.symm.trans heq3) (by simp)
          · rename_i rv2 heq3
            -- both updates assigned; the return expression cannot raise
            have hvarP : (scalarMap (· / ((x.shape.headD 0 : ℕ) : α)) v0).shape.prod
                = dim := by
              rw [scalarMap_shape, hv0s]
              rw [scalarMap_shape, hs0s] at havgP
              exact havgP
            obtain ⟨out, hout⟩ :=
              bnLine173_isSome dim eps sqrtF w b _ _ x hw hbs havgP hvarP hcmp
            split at herr
            · rename_i heq4
              exact absurd (hout.symm.trans heq4) (by simp)
            · simp at herr

/-- Witness for C2: a training-mode forward on a `(2, 3)` input with
`dim = 1` raises in the batch-variance reshape; the call fails and the
running statistics come back unchanged. -/
theorem bnForward_failure_preserves_stats_witness :
    (bnForward (α := ℚ) true 1 0 0 id ⟨[1], fun _ => 0⟩ ⟨[1], fun _ => 0⟩
        ⟨[1], fun _ => 0⟩ ⟨[1], fun _ => 0⟩ ⟨[2, 3], fun _ => 0⟩).2 = none ∧
    (bnForward (α := ℚ) true 1 0 0 id ⟨[1], fun _ => 0⟩ ⟨[1], fun _ => 0⟩
        ⟨[1], fun _ => 0⟩ ⟨[1], fun _ => 0⟩ ⟨[2, 3], fun _ => 0⟩).1 =
      (⟨[1], fun _ => 0⟩, ⟨[1], fun _ => 0⟩) :=
  ⟨rfl,
   bnForward_failure_preserves_stats true 1 0 0 id _ _ _ _ _ rfl rfl rfl rfl rfl⟩
